import Mathlib

/-
Verification of the circular doubly-linked playlist from
src/models/playlist.py and src/models/node.py.

Python objects are modelled by a heap: a list of nodes where a node's
identity is its index (allocation order).  The `anterior` / `siguiente`
fields hold indices into the heap.  Removed nodes stay in the heap with
their stale links, exactly as unreferenced Python objects keep their
attributes.
-/

/-- A node of the circular doubly linked list (src/models/node.py,
`NodoCancion.__init__`).  `anterior` and `siguiente` are heap indices. -/
structure NodoCancion where
  titulo : String
  artista : String
  duracion : Nat
  ruta : String
  anterior : Nat
  siguiente : Nat
deriving DecidableEq, Repr, Inhabited

/-- The playlist state (src/models/playlist.py, `ListaReproduccion.__init__`):
current node `actual`, chronological anchor `primero`, size `tamanio`,
plus the heap of every node ever allocated. -/
structure ListaReproduccion where
  heap : List NodoCancion
  actual : Option Nat
  primero : Option Nat
  tamanio : Nat
deriving DecidableEq, Repr

/-- The freshly constructed empty playlist. -/
def vacia : ListaReproduccion := ⟨[], none, none, 0⟩

/-- `ListaReproduccion.esta_vacia`: `self.tamanio == 0`. -/
def esta_vacia (s : ListaReproduccion) : Bool := s.tamanio == 0

/-- `__len__`: returns `self.tamanio`. -/
def longitud (s : ListaReproduccion) : Nat := s.tamanio

/-- Read a node's `siguiente` pointer out of the heap. -/
def siguienteDe (heap : List NodoCancion) (i : Nat) : Nat :=
  (heap.getD i default).siguiente

/-- Read a node's `anterior` pointer out of the heap. -/
def anteriorDe (heap : List NodoCancion) (i : Nat) : Nat :=
  (heap.getD i default).anterior

/-- In-place update of a node's `siguiente` field (`x.siguiente = j`). -/
def setSiguiente (heap : List NodoCancion) (i j : Nat) : List NodoCancion :=
  heap.set i { heap.getD i default with siguiente := j }

/-- In-place update of a node's `anterior` field (`x.anterior = j`). -/
def setAnterior (heap : List NodoCancion) (i j : Nat) : List NodoCancion :=
  heap.set i { heap.getD i default with anterior := j }

/-- `ListaReproduccion.agregar_cancion`: allocate a self-linked node and
splice it in just before `primero` (at the chronological end).  The new
node's identity is `s.heap.length`. -/
def agregar_cancion (s : ListaReproduccion) (titulo artista : String)
    (duracion : Nat) (ruta : String) : ListaReproduccion :=
  let idNuevo := s.heap.length
  let nuevo : NodoCancion :=
    { titulo := titulo, artista := artista, duracion := duracion, ruta := ruta,
      anterior := idNuevo, siguiente := idNuevo }
  if esta_vacia s then
    { heap := s.heap ++ [nuevo], actual := some idNuevo,
      primero := some idNuevo, tamanio := s.tamanio + 1 }
  else
    let p := s.primero.getD 0
    let ultimo := anteriorDe s.heap p
    let nuevo2 := { nuevo with siguiente := p, anterior := ultimo }
    let heap1 := s.heap ++ [nuevo2]
    let heap2 := setSiguiente heap1 ultimo idNuevo
    let heap3 := setAnterior heap2 p idNuevo
    { heap := heap3, actual := s.actual, primero := s.primero,
      tamanio := s.tamanio + 1 }

/-- `ListaReproduccion.eliminar_cancion_actual`: returns the removed node's
identity (or `none` on the empty list) together with the new state.  The
three pointer writes happen in the source's order, each reading the heap
left by the previous one. -/
def eliminar_cancion_actual (s : ListaReproduccion) :
    Option Nat × ListaReproduccion :=
  if esta_vacia s then (none, s)
  else
    let c := s.actual.getD 0
    if s.tamanio = 1 then
      (some c, { s with actual := none, primero := none,
                        tamanio := s.tamanio - 1 })
    else
      let primero1 :=
        if s.actual = s.primero then some (siguienteDe s.heap (s.primero.getD 0))
        else s.primero
      let heap1 := setSiguiente s.heap (anteriorDe s.heap c) (siguienteDe s.heap c)
      let heap2 := setAnterior heap1 (siguienteDe heap1 c) (anteriorDe heap1 c)
      (some c, { heap := heap2, actual := some (siguienteDe heap2 c),
                 primero := primero1, tamanio := s.tamanio - 1 })

/-- `ListaReproduccion.siguiente_cancion`: move `actual` one step forward;
returns the new current node. -/
def siguiente_cancion (s : ListaReproduccion) : Option Nat × ListaReproduccion :=
  if esta_vacia s then (none, s)
  else
    let c := siguienteDe s.heap (s.actual.getD 0)
    (some c, { s with actual := some c })

/-- `ListaReproduccion.cancion_anterior`: move `actual` one step back;
returns the new current node. -/
def cancion_anterior (s : ListaReproduccion) : Option Nat × ListaReproduccion :=
  if esta_vacia s then (none, s)
  else
    let c := anteriorDe s.heap (s.actual.getD 0)
    (some c, { s with actual := some c })

/-- `ListaReproduccion.obtener_cancion_actual`: returns `self.actual`. -/
def obtener_cancion_actual (s : ListaReproduccion) : Option Nat := s.actual

/-- The `while nodo != self.primero` loop of `obtener_todas_las_canciones`,
with explicit fuel: `none` means the loop has not come back to `primero`
within `fuel` steps.  The stopping test compares node identities. -/
def recorrer (heap : List NodoCancion) (primero : Nat) :
    Nat → Nat → Option (List Nat)
  | 0, nodo => if nodo = primero then some [] else none
  | fuel + 1, nodo =>
    if nodo = primero then some []
    else (recorrer heap primero fuel (siguienteDe heap nodo)).map
      (fun l => nodo :: l)

/-- `ListaReproduccion.obtener_todas_las_canciones`: start at `primero`,
append it, then walk `siguiente` until the walk returns to `primero`. -/
def obtener_todas_las_canciones (s : ListaReproduccion) (fuel : Nat) :
    Option (List Nat) :=
  if esta_vacia s then some []
  else
    let p := s.primero.getD 0
    (recorrer s.heap p fuel (siguienteDe s.heap p)).map (fun l => p :: l)

/-- The song metadata of a node, without its links. -/
def datosDe (nd : NodoCancion) : String × String × Nat × String :=
  (nd.titulo, nd.artista, nd.duracion, nd.ruta)

/-- One playlist API call. -/
inductive Accion where
  | agregar (titulo artista : String) (duracion : Nat) (ruta : String)
  | eliminar
  | avanzar
  | retroceder
  | consultarActual
  | contar
  | recorrerTodo (fuel : Nat)
deriving DecidableEq, Repr

/-- State effect of one API call (queries leave the state unchanged). -/
def paso (s : ListaReproduccion) : Accion → ListaReproduccion
  | .agregar t a d r => agregar_cancion s t a d r
  | .eliminar => (eliminar_cancion_actual s).2
  | .avanzar => (siguiente_cancion s).2
  | .retroceder => (cancion_anterior s).2
  | .consultarActual => s
  | .contar => s
  | .recorrerTodo _ => s

/-- Run a sequence of API calls. -/
def ejecutar (s : ListaReproduccion) (acts : List Accion) : ListaReproduccion :=
  acts.foldl paso s

/-- States reachable from the empty playlist by API calls. -/
def Alcanzable (s : ListaReproduccion) : Prop :=
  ∃ acts : List Accion, ejecutar vacia acts = s

/-- `x`'s `siguiente` points to `y` and `y`'s `anterior` points back to `x`. -/
def Enlace (heap : List NodoCancion) (x y : Nat) : Prop :=
  siguienteDe heap x = y ∧ anteriorDe heap y = x

instance (heap : List NodoCancion) (x y : Nat) : Decidable (Enlace heap x y) :=
  inferInstanceAs (Decidable (_ ∧ _))

/-- `l` lists a cycle of the `siguiente` / `anterior` links: consecutive
elements are linked and the last links back to the first. -/
def esCiclo (heap : List NodoCancion) : List Nat → Prop
  | [] => True
  | a :: l => List.Chain' (Enlace heap) ((a :: l) ++ [a])

/-- Representation invariant: `ring` lists the identities of the in-ring
nodes once each, in ring order starting at `primero`; `actual` is in the
ring exactly when the list is non-empty. -/
structure RepAnillo (s : ListaReproduccion) (ring : List Nat) : Prop where
  longitud_eq : ring.length = s.tamanio
  sinRepetidos : ring.Nodup
  cotas : ∀ i ∈ ring, i < s.heap.length
  primero_eq : s.primero = ring.head?
  actual_mem : ∀ a ∈ s.actual, a ∈ ring
  actual_none : s.actual = none → ring = []
  ciclo : esCiclo s.heap ring

/-! ### Heap access lemmas -/

lemma getD_set_self (heap : List NodoCancion) (i : Nat) (v : NodoCancion)
    (h : i < heap.length) : (heap.set i v).getD i default = v := by
  simp [List.getD_eq_getElem?_getD, List.getElem?_set, h]

lemma getD_set_ne (heap : List NodoCancion) (i x : Nat) (v : NodoCancion)
    (h : x ≠ i) : (heap.set i v).getD x default = heap.getD x default := by
  simp [List.getD_eq_getElem?_getD, List.getElem?_set, Ne.symm h]

lemma getD_append_lt (heap l : List NodoCancion) (x : Nat)
    (h : x < heap.length) : (heap ++ l).getD x default = heap.getD x default := by
  simp [List.getD_eq_getElem?_getD, List.getElem?_append, h]

lemma getD_append_self (heap : List NodoCancion) (v : NodoCancion) :
    (heap ++ [v]).getD heap.length default = v := by
  simp [List.getD_eq_getElem?_getD]

lemma length_setSiguiente (heap : List NodoCancion) (i j : Nat) :
    (setSiguiente heap i j).length = heap.length := by simp [setSiguiente]

lemma length_setAnterior (heap : List NodoCancion) (i j : Nat) :
    (setAnterior heap i j).length = heap.length := by simp [setAnterior]

lemma siguienteDe_setSiguiente_self (heap : List NodoCancion) (i j : Nat)
    (h : i < heap.length) : siguienteDe (setSiguiente heap i j) i = j := by
  simp only [siguienteDe, setSiguiente]
  rw [getD_set_self _ _ _ h]

lemma siguienteDe_setSiguiente_ne (heap : List NodoCancion) (i j x : Nat)
    (h : x ≠ i) : siguienteDe (setSiguiente heap i j) x = siguienteDe heap x := by
  simp only [siguienteDe, setSiguiente]
  rw [getD_set_ne _ _ _ _ h]

lemma anteriorDe_setSiguiente (heap : List NodoCancion) (i j y : Nat) :
    anteriorDe (setSiguiente heap i j) y = anteriorDe heap y := by
  by_cases hy : y = i
  · subst hy
    by_cases hi : y < heap.length
    · simp only [anteriorDe, setSiguiente]
      rw [getD_set_self _ _ _ hi]
    · simp only [anteriorDe, setSiguiente]
      rw [List.set_eq_of_length_le (Nat.le_of_not_lt hi)]
  · simp only [anteriorDe, setSiguiente]
    rw [getD_set_ne _ _ _ _ hy]

lemma siguienteDe_setAnterior (heap : List NodoCancion) (i j x : Nat) :
    siguienteDe (setAnterior heap i j) x = siguienteDe heap x := by
  by_cases hx : x = i
  · subst hx
    by_cases hi : x < heap.length
    · simp only [siguienteDe, setAnterior]
      rw [getD_set_self _ _ _ hi]
    · simp only [siguienteDe, setAnterior]
      rw [List.set_eq_of_length_le (Nat.le_of_not_lt hi)]
  · simp only [siguienteDe, setAnterior]
    rw [getD_set_ne _ _ _ _ hx]

lemma anteriorDe_setAnterior_self (heap : List NodoCancion) (i j : Nat)
    (h : i < heap.length) : anteriorDe (setAnterior heap i j) i = j := by
  simp only [anteriorDe, setAnterior]
  rw [getD_set_self _ _ _ h]

lemma anteriorDe_setAnterior_ne (heap : List NodoCancion) (i j y : Nat)
    (h : y ≠ i) : anteriorDe (setAnterior heap i j) y = anteriorDe heap y := by
  simp only [anteriorDe, setAnterior]
  rw [getD_set_ne _ _ _ _ h]

lemma siguienteDe_append_lt (heap l : List NodoCancion) (x : Nat)
    (h : x < heap.length) : siguienteDe (heap ++ l) x = siguienteDe heap x := by
  simp only [siguienteDe]
  rw [getD_append_lt _ _ _ h]

lemma anteriorDe_append_lt (heap l : List NodoCancion) (y : Nat)
    (h : y < heap.length) : anteriorDe (heap ++ l) y = anteriorDe heap y := by
  simp only [anteriorDe]
  rw [getD_append_lt _ _ _ h]

lemma siguienteDe_append_self (heap : List NodoCancion) (v : NodoCancion) :
    siguienteDe (heap ++ [v]) heap.length = v.siguiente := by
  simp only [siguienteDe]
  rw [getD_append_self]

lemma anteriorDe_append_self (heap : List NodoCancion) (v : NodoCancion) :
    anteriorDe (heap ++ [v]) heap.length = v.anterior := by
  simp only [anteriorDe]
  rw [getD_append_self]

lemma datosDe_setSiguiente (heap : List NodoCancion) (i j x : Nat) :
    datosDe ((setSiguiente heap i j).getD x default) =
      datosDe (heap.getD x default) := by
  by_cases hx : x = i
  · subst hx
    by_cases hi : x < heap.length
    · simp only [setSiguiente]
      rw [getD_set_self _ _ _ hi]
      simp [datosDe]
    · simp only [setSiguiente]
      rw [List.set_eq_of_length_le (Nat.le_of_not_lt hi)]
  · simp only [setSiguiente]
    rw [getD_set_ne _ _ _ _ hx]

lemma datosDe_setAnterior (heap : List NodoCancion) (i j x : Nat) :
    datosDe ((setAnterior heap i j).getD x default) =
      datosDe (heap.getD x default) := by
  by_cases hx : x = i
  · subst hx
    by_cases hi : x < heap.length
    · simp only [setAnterior]
      rw [getD_set_self _ _ _ hi]
      simp [datosDe]
    · simp only [setAnterior]
      rw [List.set_eq_of_length_le (Nat.le_of_not_lt hi)]
  · simp only [setAnterior]
    rw [getD_set_ne _ _ _ _ hx]

/-! ### Chain and cycle lemmas -/

lemma chain'_congr_strong {α : Type} {R S : α → α → Prop} :
    ∀ l : List α, (∀ x ∈ l.dropLast, ∀ y ∈ l.tail, R x y → S x y) →
      List.Chain' R l → List.Chain' S l
  | [], _, _ => trivial
  | [a], _, _ => List.chain'_singleton a
  | a :: b :: t, h, hc => by
    rw [List.chain'_cons] at hc ⊢
    refine ⟨h a (by simp) b (by simp) hc.1, ?_⟩
    refine chain'_congr_strong (b :: t) ?_ hc.2
    intro x hx y hy hr
    refine h x ?_ y (by simp at hy ⊢; exact Or.inr hy) hr
    rcases t with _ | ⟨c, t'⟩
    · simp at hx
    · simp at hx ⊢
      tauto

lemma esCiclo_rotate (heap : List NodoCancion) (a : Nat) (l : List Nat)
    (h : esCiclo heap (a :: l)) : esCiclo heap (l ++ [a]) := by
  cases l with
  | nil => exact h
  | cons b l' =>
    simp only [esCiclo, List.cons_append] at h ⊢
    rw [List.chain'_cons'] at h
    obtain ⟨hab, hrest⟩ := h
    have hE : Enlace heap a b := hab b (by simp)
    have hfull : List.Chain' (Enlace heap) ((b :: (l' ++ [a])) ++ [b]) := by
      refine List.Chain'.append hrest (List.chain'_singleton b) ?_
      intro x hx y hy
      rw [show b :: (l' ++ [a]) = (b :: l') ++ [a] by simp] at hx
      rw [List.getLast?_concat] at hx
      simp at hx hy
      subst hx; subst hy
      exact hE
    simpa using hfull

lemma esCiclo_toFront (heap : List NodoCancion) :
    ∀ (xs : List Nat) (a : Nat) (ys : List Nat),
      esCiclo heap (xs ++ a :: ys) →
      ∃ zs, esCiclo heap (a :: zs) ∧ (a :: zs).Perm (xs ++ a :: ys)
  | [], a, ys, h => ⟨ys, h, List.Perm.refl _⟩
  | x :: xs', a, ys, h => by
    have h1 : esCiclo heap ((xs' ++ a :: ys) ++ [x]) :=
      esCiclo_rotate heap x (xs' ++ a :: ys) h
    have h2 : esCiclo heap (xs' ++ a :: (ys ++ [x])) := by
      have hl : (xs' ++ a :: ys) ++ [x] = xs' ++ a :: (ys ++ [x]) := by simp
      rwa [hl] at h1
    obtain ⟨zs, hc, hp⟩ := esCiclo_toFront heap xs' a (ys ++ [x]) h2
    refine ⟨zs, hc, ?_⟩
    have hp2 : (xs' ++ a :: (ys ++ [x])).Perm (x :: (xs' ++ a :: ys)) := by
      have hl : xs' ++ a :: (ys ++ [x]) = (xs' ++ a :: ys) ++ [x] := by simp
      rw [hl]
      exact List.perm_append_singleton x (xs' ++ a :: ys)
    exact hp.trans hp2

/-- Turn membership into a front-rotated cycle. -/
lemma esCiclo_mem_front (heap : List NodoCancion) (ring : List Nat) (a : Nat)
    (h : esCiclo heap ring) (ha : a ∈ ring) :
    ∃ zs, esCiclo heap (a :: zs) ∧ (a :: zs).Perm ring := by
  obtain ⟨xs, ys, rfl⟩ := List.append_of_mem ha
  exact esCiclo_toFront heap xs a ys h

/-- Every ring member has a cyclic successor in the ring. -/
lemma ciclo_succ (heap : List NodoCancion) (ring : List Nat) (a : Nat)
    (h : esCiclo heap ring) (ha : a ∈ ring) :
    ∃ b ∈ ring, Enlace heap a b := by
  obtain ⟨zs, hc, hp⟩ := esCiclo_mem_front heap ring a h ha
  cases zs with
  | nil =>
    simp only [esCiclo, List.singleton_append] at hc
    rw [List.chain'_pair] at hc
    exact ⟨a, hp.mem_iff.mp (by simp), hc⟩
  | cons b zs' =>
    simp only [esCiclo, List.cons_append] at hc
    rw [List.chain'_cons] at hc
    exact ⟨b, hp.mem_iff.mp (by simp), hc.1⟩

/-- Every ring member has a cyclic predecessor in the ring. -/
lemma ciclo_pred (heap : List NodoCancion) (ring : List Nat) (a : Nat)
    (h : esCiclo heap ring) (ha : a ∈ ring) :
    ∃ u ∈ ring, Enlace heap u a := by
  obtain ⟨zs, hc, hp⟩ := esCiclo_mem_front heap ring a h ha
  simp only [esCiclo] at hc
  have hlast : ((a :: zs) ++ [a]).Chain' (Enlace heap) := hc
  rw [List.chain'_append] at hlast
  have hne : a :: zs ≠ [] := List.cons_ne_nil a zs
  have hu : Enlace heap ((a :: zs).getLast hne) a := by
    refine hlast.2.2 _ ?_ a (by simp)
    rw [List.getLast?_eq_getLast_of_ne_nil hne]
    rfl
  exact ⟨(a :: zs).getLast hne, hp.mem_iff.mp (List.getLast_mem hne), hu⟩

lemma ciclo_ant_sig (heap : List NodoCancion) (ring : List Nat) (a : Nat)
    (h : esCiclo heap ring) (ha : a ∈ ring) :
    anteriorDe heap (siguienteDe heap a) = a ∧ siguienteDe heap a ∈ ring := by
  obtain ⟨b, hb, he⟩ := ciclo_succ heap ring a h ha
  rw [he.1]
  exact ⟨he.2, hb⟩

lemma ciclo_sig_ant (heap : List NodoCancion) (ring : List Nat) (a : Nat)
    (h : esCiclo heap ring) (ha : a ∈ ring) :
    siguienteDe heap (anteriorDe heap a) = a ∧ anteriorDe heap a ∈ ring := by
  obtain ⟨u, hu, he⟩ := ciclo_pred heap ring a h ha
  rw [he.2]
  exact ⟨he.1, hu⟩

lemma ciclo_sig_ne (heap : List NodoCancion) (ring : List Nat) (a : Nat)
    (h : esCiclo heap ring) (hnd : ring.Nodup) (hlen : 2 ≤ ring.length)
    (ha : a ∈ ring) : siguienteDe heap a ≠ a := by
  obtain ⟨zs, hc, hp⟩ := esCiclo_mem_front heap ring a h ha
  have hnd2 : (a :: zs).Nodup := hp.nodup_iff.mpr hnd
  have hzs : zs ≠ [] := by
    intro hz
    subst hz
    have := hp.length_eq
    simp at this
    omega
  cases zs with
  | nil => exact absurd rfl hzs
  | cons b zs' =>
    simp only [esCiclo, List.cons_append] at hc
    rw [List.chain'_cons] at hc
    have hsig : siguienteDe heap a = b := hc.1.1
    rw [hsig]
    rw [List.nodup_cons] at hnd2
    intro hba
    exact hnd2.1 (hba ▸ List.mem_cons_self b zs')

lemma ciclo_ant_ne (heap : List NodoCancion) (ring : List Nat) (a : Nat)
    (h : esCiclo heap ring) (hnd : ring.Nodup) (hlen : 2 ≤ ring.length)
    (ha : a ∈ ring) : anteriorDe heap a ≠ a := by
  obtain ⟨zs, hc, hp⟩ := esCiclo_mem_front heap ring a h ha
  have hnd2 : (a :: zs).Nodup := hp.nodup_iff.mpr hnd
  have hzs : zs ≠ [] := by
    intro hz
    subst hz
    have := hp.length_eq
    simp at this
    omega
  simp only [esCiclo] at hc
  rw [List.chain'_append] at hc
  have hne : a :: zs ≠ [] := List.cons_ne_nil a zs
  have hu : Enlace heap ((a :: zs).getLast hne) a := by
    refine hc.2.2 _ ?_ a (by simp)
    rw [List.getLast?_eq_getLast_of_ne_nil hne]
    rfl
  have hant : anteriorDe heap a = (a :: zs).getLast hne := hu.2
  rw [hant, List.getLast_cons hzs]
  rw [List.nodup_cons] at hnd2
  intro hga
  exact hnd2.1 (hga ▸ List.getLast_mem hzs)

/-! ### Iteration around the ring -/

lemma chain_iterate_fun (f : Nat → Nat) :
    ∀ (l : List Nat) (a : Nat),
      List.Chain' (fun x y => f x = y) (a :: l) →
      f^[l.length] a = (a :: l).getLast (List.cons_ne_nil a l)
  | [], _, _ => rfl
  | b :: l', a, h => by
    rw [List.chain'_cons] at h
    have ih := chain_iterate_fun f l' b h.2
    have hlen : (b :: l').length = l'.length + 1 := rfl
    rw [hlen, Function.iterate_succ_apply, h.1,
      List.getLast_cons (List.cons_ne_nil b l')]
    exact ih

lemma ciclo_iterate_sig (heap : List NodoCancion) (ring : List Nat) (a : Nat)
    (h : esCiclo heap ring) (ha : a ∈ ring) :
    (fun x => siguienteDe heap x)^[ring.length] a = a := by
  obtain ⟨zs, hc, hp⟩ := esCiclo_mem_front heap ring a h ha
  simp only [esCiclo] at hc
  have hchain : List.Chain' (fun x y => siguienteDe heap x = y) (a :: (zs ++ [a])) :=
    List.Chain'.imp (fun x y hxy => hxy.1) hc
  have hiter := chain_iterate_fun (fun x => siguienteDe heap x) (zs ++ [a]) a hchain
  have hlast : (a :: (zs ++ [a])).getLast (List.cons_ne_nil _ _) = a := by
    have h1 : (a :: (zs ++ [a])).getLast? = some a := by
      rw [show a :: (zs ++ [a]) = (a :: zs) ++ [a] by simp, List.getLast?_concat]
    rw [List.getLast?_eq_getLast_of_ne_nil (List.cons_ne_nil _ _)] at h1
    exact Option.some_injective _ h1
  have hlen : (zs ++ [a]).length = ring.length := by
    have := hp.length_eq
    simp at this ⊢
    omega
  rw [hlen] at hiter
  rw [hiter, hlast]

lemma ciclo_iterate_mem (heap : List NodoCancion) (ring : List Nat) (a : Nat)
    (h : esCiclo heap ring) (ha : a ∈ ring) :
    ∀ m, (fun x => siguienteDe heap x)^[m] a ∈ ring := by
  intro m
  induction m with
  | zero => exact ha
  | succ m ih =>
    rw [Function.iterate_succ_apply']
    exact (ciclo_ant_sig heap ring _ h ih).2

lemma ciclo_iterate_cancel (heap : List NodoCancion) (ring : List Nat) (a : Nat)
    (h : esCiclo heap ring) (ha : a ∈ ring) :
    ∀ m, (fun x => anteriorDe heap x)^[m] ((fun x => siguienteDe heap x)^[m] a) = a := by
  intro m
  induction m with
  | zero => rfl
  | succ m ih =>
    rw [Function.iterate_succ_apply' (fun x => siguienteDe heap x)]
    rw [Function.iterate_succ_apply (fun x => anteriorDe heap x)]
    have hmem := ciclo_iterate_mem heap ring a h ha m
    rw [show anteriorDe heap (siguienteDe heap ((fun x => siguienteDe heap x)^[m] a)) =
        (fun x => siguienteDe heap x)^[m] a from (ciclo_ant_sig heap ring _ h hmem).1]
    exact ih

lemma ciclo_iterate_ant (heap : List NodoCancion) (ring : List Nat) (a : Nat)
    (h : esCiclo heap ring) (ha : a ∈ ring) :
    (fun x => anteriorDe heap x)^[ring.length] a = a := by
  have hcan := ciclo_iterate_cancel heap ring a h ha ring.length
  rwa [ciclo_iterate_sig heap ring a h ha] at hcan

/-! ### The traversal loop -/

lemma recorrer_self (heap : List NodoCancion) (p : Nat) :
    ∀ fuel, recorrer heap p fuel p = some []
  | 0 => by simp [recorrer]
  | _ + 1 => by simp [recorrer]

lemma recorrer_chain (heap : List NodoCancion) (p : Nat) :
    ∀ (l : List Nat) (nodo fuel : Nat),
      List.Chain' (fun x y => siguienteDe heap x = y) (nodo :: (l ++ [p])) →
      nodo ≠ p → (∀ x ∈ l, x ≠ p) → l.length + 1 ≤ fuel →
      recorrer heap p fuel nodo = some (nodo :: l)
  | [], nodo, fuel, hchain, hnp, _, hfuel => by
    match fuel, hfuel with
    | fuel + 1, _ =>
      simp only [recorrer, if_neg hnp]
      simp only [List.nil_append] at hchain
      rw [List.chain'_cons] at hchain
      rw [hchain.1, recorrer_self]
      rfl
  | x :: l', nodo, fuel, hchain, hnp, hmem, hfuel => by
    match fuel, hfuel with
    | fuel + 1, hf =>
      simp only [recorrer, if_neg hnp]
      simp only [List.cons_append] at hchain
      rw [List.chain'_cons] at hchain
      rw [hchain.1]
      rw [recorrer_chain heap p l' x fuel hchain.2 (hmem x (by simp))
        (fun z hz => hmem z (by simp [hz])) (by simp at hf ⊢; omega)]
      rfl

/-- Under the representation invariant the traversal returns exactly the
ring, provided the fuel covers the size. -/
lemma obtener_rep (s : ListaReproduccion) (ring : List Nat) (fuel : Nat)
    (h : RepAnillo s ring) (hfuel : s.tamanio ≤ fuel) :
    obtener_todas_las_canciones s fuel = some ring := by
  cases ring with
  | nil =>
    have h0 : s.tamanio = 0 := by simpa using h.longitud_eq.symm
    simp [obtener_todas_las_canciones, esta_vacia, h0]
  | cons p rest =>
    have hp : s.primero = some p := by rw [h.primero_eq]; rfl
    have hlen : rest.length + 1 = s.tamanio := by simpa using h.longitud_eq
    have hvac : esta_vacia s = false := by
      simp [esta_vacia]
      omega
    simp only [obtener_todas_las_canciones, hvac, Bool.false_eq_true,
      if_false, hp, Option.getD_some]
    cases rest with
    | nil =>
      have hcyc := h.ciclo
      simp only [esCiclo, List.singleton_append] at hcyc
      rw [List.chain'_pair] at hcyc
      rw [hcyc.1, recorrer_self]
      rfl
    | cons x rest' =>
      have hcyc := h.ciclo
      simp only [esCiclo, List.cons_append] at hcyc
      have hch : List.Chain' (fun u v => siguienteDe s.heap u = v)
          (p :: (x :: (rest' ++ [p]))) :=
        List.Chain'.imp (fun u v huv => huv.1) hcyc
      rw [List.chain'_cons] at hch
      have hnd := h.sinRepetidos
      rw [List.nodup_cons] at hnd
      have hxp : x ≠ p := fun hxp => hnd.1 (hxp ▸ List.mem_cons_self x rest')
      have hmem : ∀ z ∈ rest', z ≠ p :=
        fun z hz hzp => hnd.1 (hzp ▸ List.mem_cons_of_mem x hz)
      rw [hch.1]
      rw [recorrer_chain s.heap p rest' x fuel hch.2 hxp hmem
        (by simp at hlen ⊢; omega)]
      rfl

/-! ### Invariant preservation -/

lemma getLast_not_mem_dropLast (l : List Nat) (h : l.Nodup) (hne : l ≠ []) :
    l.getLast hne ∉ l.dropLast := by
  intro hmem
  have heq := List.dropLast_append_getLast hne
  rw [← heq] at h
  rw [List.nodup_append] at h
  exact h.2.2 hmem (by simp)

lemma rep_vacia : RepAnillo vacia [] :=
  ⟨rfl, List.nodup_nil, by simp, rfl, by simp [vacia], fun _ => rfl, trivial⟩

lemma agregar_heap_length (s : ListaReproduccion) (t a : String) (d : Nat)
    (r : String) :
    (agregar_cancion s t a d r).heap.length = s.heap.length + 1 := by
  by_cases h : esta_vacia s
  · simp [agregar_cancion, h]
  · simp [agregar_cancion, h, length_setAnterior, length_setSiguiente]

lemma agregar_eq_vacia (s : ListaReproduccion) (t a : String) (d : Nat)
    (r : String) (hvac : esta_vacia s = true) :
    agregar_cancion s t a d r =
      { heap := s.heap ++
          [⟨t, a, d, r, s.heap.length, s.heap.length⟩],
        actual := some s.heap.length, primero := some s.heap.length,
        tamanio := s.tamanio + 1 } := by
  simp [agregar_cancion, hvac]

lemma agregar_eq_llena (s : ListaReproduccion) (t a : String) (d : Nat)
    (r : String) (p : Nat) (hvac : esta_vacia s = false)
    (hp : s.primero = some p) :
    agregar_cancion s t a d r =
      { heap := setAnterior
          (setSiguiente
            (s.heap ++ [⟨t, a, d, r, anteriorDe s.heap p, p⟩])
            (anteriorDe s.heap p) s.heap.length)
          p s.heap.length,
        actual := s.actual, primero := s.primero,
        tamanio := s.tamanio + 1 } := by
  simp [agregar_cancion, hvac, hp]

lemma rep_agregar (s : ListaReproduccion) (ring : List Nat) (t a : String)
    (d : Nat) (r : String) (h : RepAnillo s ring) :
    RepAnillo (agregar_cancion s t a d r) (ring ++ [s.heap.length]) := by
  cases ring with
  | nil =>
    have h0 : s.tamanio = 0 := by simpa using h.longitud_eq.symm
    have hvac : esta_vacia s = true := by simp [esta_vacia, h0]
    rw [agregar_eq_vacia s t a d r hvac]
    refine ⟨by simp [h0], by simp, by simp, by simp, by simp, by simp, ?_⟩
    show List.Chain' (Enlace (s.heap ++ [⟨t, a, d, r, s.heap.length, s.heap.length⟩]))
      ([s.heap.length] ++ [s.heap.length])
    rw [List.singleton_append, List.chain'_pair]
    exact ⟨siguienteDe_append_self s.heap _, anteriorDe_append_self s.heap _⟩
  | cons p rest =>
    have hlen : rest.length + 1 = s.tamanio := by simpa using h.longitud_eq
    have hvac : esta_vacia s = false := by
      simp [esta_vacia]
      omega
    have hp : s.primero = some p := by rw [h.primero_eq]; rfl
    have hne : p :: rest ≠ [] := List.cons_ne_nil p rest
    have hpmem : p ∈ p :: rest := List.mem_cons_self p rest
    have hpheap : p < s.heap.length := h.cotas p hpmem
    have hcyc := h.ciclo
    simp only [esCiclo] at hcyc
    rw [List.chain'_append] at hcyc
    have hEup : Enlace s.heap ((p :: rest).getLast hne) p := by
      refine hcyc.2.2 _ ?_ p (by simp)
      rw [List.getLast?_eq_getLast_of_ne_nil hne]
      rfl
    have humem : (p :: rest).getLast hne ∈ p :: rest := List.getLast_mem hne
    have huheap : (p :: rest).getLast hne < s.heap.length := h.cotas _ humem
    have huP : anteriorDe s.heap p = (p :: rest).getLast hne := hEup.2
    rw [agregar_eq_llena s t a d r p hvac hp, huP]
    set u := (p :: rest).getLast hne with hu
    set idN := s.heap.length with hid
    set nuevo2 : NodoCancion := ⟨t, a, d, r, u, p⟩ with hnuevo
    set heapA := s.heap ++ [nuevo2] with hheapA
    set heapB := setSiguiente heapA u idN with hheapB
    set heapC := setAnterior heapB p idN with hheapC
    have hlenA : heapA.length = idN + 1 := by simp [hheapA]
    have hlenB : heapB.length = idN + 1 := by rw [hheapB, length_setSiguiente, hlenA]
    have hlenC : heapC.length = idN + 1 := by rw [hheapC, length_setAnterior, hlenB]
    have hiNotos : idN ∉ p :: rest := fun hmem => by
      have := h.cotas idN hmem
      omega
    -- transfer of siguiente reads at nodes other than u
    have hsig_eq : ∀ x, x ≠ u → x < s.heap.length →
        siguienteDe heapC x = siguienteDe s.heap x := by
      intro x hxu hxl
      rw [hheapC, siguienteDe_setAnterior, hheapB,
        siguienteDe_setSiguiente_ne _ _ _ _ hxu, hheapA,
        siguienteDe_append_lt _ _ _ hxl]
    -- transfer of anterior reads at nodes other than p
    have hant_eq : ∀ y, y ≠ p → y < s.heap.length →
        anteriorDe heapC y = anteriorDe s.heap y := by
      intro y hyp hyl
      rw [hheapC, anteriorDe_setAnterior_ne _ _ _ _ hyp, hheapB,
        anteriorDe_setSiguiente, hheapA, anteriorDe_append_lt _ _ _ hyl]
    have c2 : Enlace heapC u idN := by
      constructor
      · rw [hheapC, siguienteDe_setAnterior, hheapB,
          siguienteDe_setSiguiente_self _ _ _ (by omega)]
      · rw [hheapC, anteriorDe_setAnterior_ne _ _ _ _ (by omega), hheapB,
          anteriorDe_setSiguiente, hheapA, anteriorDe_append_self]
    have c3 : Enlace heapC idN p := by
      constructor
      · rw [hheapC, siguienteDe_setAnterior, hheapB,
          siguienteDe_setSiguiente_ne _ _ _ _ (by omega), hheapA,
          siguienteDe_append_self]
      · rw [hheapC, anteriorDe_setAnterior_self _ _ _ (by omega)]
    have c1 : List.Chain' (Enlace heapC) (p :: rest) := by
      refine chain'_congr_strong (p :: rest) ?_ hcyc.1
      intro x hx y hy hxy
      have hxu : x ≠ u := by
        intro hxeq
        rw [hxeq] at hx
        exact getLast_not_mem_dropLast (p :: rest) h.sinRepetidos hne hx
      have hyp : y ≠ p := by
        intro hyeq
        have hnd := h.sinRepetidos
        rw [List.nodup_cons] at hnd
        simp only [List.tail_cons] at hy
        exact hnd.1 (hyeq ▸ hy)
      have hxl : x < s.heap.length := h.cotas x (List.dropLast_subset _ hx)
      have hyl : y < s.heap.length := by
        refine h.cotas y ?_
        simp only [List.tail_cons] at hy
        exact List.mem_cons_of_mem p hy
      exact ⟨(hsig_eq x hxu hxl).symm ▸ hxy.1, (hant_eq y hyp hyl).symm ▸ hxy.2⟩
    have step1 : List.Chain' (Enlace heapC) ((p :: rest) ++ [idN]) := by
      refine List.Chain'.append c1 (List.chain'_singleton idN) ?_
      intro x hx y hy
      rw [List.getLast?_eq_getLast_of_ne_nil hne] at hx
      simp at hy
      have hxu : x = u := by
        simp at hx
        exact hx.symm
      subst hxu; subst hy
      exact c2
    have step2 : List.Chain' (Enlace heapC) (((p :: rest) ++ [idN]) ++ [p]) := by
      refine List.Chain'.append step1 (List.chain'_singleton p) ?_
      intro x hx y hy
      rw [List.getLast?_concat] at hx
      simp at hx hy
      subst hx; subst hy
      exact c3
    refine ⟨?_, ?_, ?_, ?_, ?_, ?_, ?_⟩
    · simp
      omega
    · refine List.Nodup.append h.sinRepetidos (List.nodup_singleton idN) ?_
      intro x hx hx2
      simp at hx2
      exact hiNotos (hx2 ▸ hx)
    · intro i hi
      rw [hlenC]
      rcases List.mem_append.mp hi with hi1 | hi2
      · have := h.cotas i hi1
        omega
      · simp at hi2
        omega
    · simp [hp]
    · intro a' ha'
      exact List.mem_append_left _ (h.actual_mem a' ha')
    · intro hnone
      exact absurd (h.actual_none hnone) hne
    · show List.Chain' (Enlace heapC) ((p :: (rest ++ [idN])) ++ [p])
      simpa using step2

lemma eliminar_eq_vacia (s : ListaReproduccion) (hvac : esta_vacia s = true) :
    eliminar_cancion_actual s = (none, s) := by
  simp [eliminar_cancion_actual, hvac]

lemma eliminar_eq_uno (s : ListaReproduccion) (c : Nat)
    (hvac : esta_vacia s = false) (h1 : s.tamanio = 1) (hc : s.actual = some c) :
    eliminar_cancion_actual s =
      (some c, { s with actual := none, primero := none, tamanio := 0 }) := by
  simp [eliminar_cancion_actual, hvac, h1, hc]

lemma eliminar_eq_mas (s : ListaReproduccion) (c : Nat)
    (hvac : esta_vacia s = false) (h1 : s.tamanio ≠ 1) (hc : s.actual = some c)
    (hant : anteriorDe s.heap c ≠ c) (hsig : siguienteDe s.heap c ≠ c) :
    eliminar_cancion_actual s =
      (some c,
       { heap := setAnterior
           (setSiguiente s.heap (anteriorDe s.heap c) (siguienteDe s.heap c))
           (siguienteDe s.heap c) (anteriorDe s.heap c),
         actual := some (siguienteDe s.heap c),
         primero := if s.primero = some c then some (siguienteDe s.heap c)
           else s.primero,
         tamanio := s.tamanio - 1 }) := by
  have e1 : siguienteDe
      (setSiguiente s.heap (anteriorDe s.heap c) (siguienteDe s.heap c)) c =
      siguienteDe s.heap c :=
    siguienteDe_setSiguiente_ne _ _ _ _ (Ne.symm hant)
  have e2 : anteriorDe
      (setSiguiente s.heap (anteriorDe s.heap c) (siguienteDe s.heap c)) c =
      anteriorDe s.heap c := anteriorDe_setSiguiente _ _ _ _
  have e3 : siguienteDe
      (setAnterior
        (setSiguiente s.heap (anteriorDe s.heap c) (siguienteDe s.heap c))
        (siguienteDe s.heap c) (anteriorDe s.heap c)) c =
      siguienteDe s.heap c := by
    rw [siguienteDe_setAnterior, e1]
  by_cases hpc : s.primero = some c
  · simp [eliminar_cancion_actual, hvac, h1, hc, hpc, e1, e2, e3]
  · have hap : ¬ s.actual = s.primero := by
      rw [hc]
      intro hval
      exact hpc hval.symm
    simp [eliminar_cancion_actual, hvac, h1, hc, hpc, hap, e1, e2, e3]
    intro hval
    exact absurd hval.symm hpc

/-- Removing the head of a front-rotated cycle of length at least two:
the spliced heap's links form a cycle on the tail. -/
lemma ciclo_eliminar_core (heap : List NodoCancion) (c : Nat) (zs : List Nat)
    (hc : esCiclo heap (c :: zs)) (hnd : (c :: zs).Nodup) (hzs : zs ≠ [])
    (hb : ∀ i ∈ c :: zs, i < heap.length) :
    esCiclo (setAnterior
        (setSiguiente heap (anteriorDe heap c) (siguienteDe heap c))
        (siguienteDe heap c) (anteriorDe heap c)) zs ∧
      siguienteDe heap c = zs.head hzs ∧
      anteriorDe heap c = zs.getLast hzs := by
  cases zs with
  | nil => exact absurd rfl hzs
  | cons z0 zs' =>
    have hne : c :: z0 :: zs' ≠ [] := List.cons_ne_nil _ _
    simp only [esCiclo] at hc
    have hwrap : Enlace heap ((c :: z0 :: zs').getLast hne) c := by
      have hcA := hc
      rw [List.chain'_append] at hcA
      refine hcA.2.2 _ ?_ c (by simp)
      rw [List.getLast?_eq_getLast_of_ne_nil hne]
      rfl
    have hcz : List.Chain' (Enlace heap) (c :: z0 :: zs') := by
      have hcA := hc
      rw [List.chain'_append] at hcA
      exact hcA.1
    rw [List.chain'_cons] at hcz
    have hsig : siguienteDe heap c = z0 := hcz.1.1
    have hant : anteriorDe heap c = (z0 :: zs').getLast (List.cons_ne_nil _ _) := by
      rw [hwrap.2]
      exact List.getLast_cons (List.cons_ne_nil z0 zs')
    refine ⟨?_, by simpa using hsig, by simpa using hant⟩
    have hndz : (z0 :: zs').Nodup := (List.nodup_cons.mp hnd).2
    have hbant : anteriorDe heap c < heap.length := by
      refine hb _ ?_
      rw [hant]
      exact List.mem_cons_of_mem c (List.getLast_mem _)
    have hbsig : siguienteDe heap c < heap.length := by
      rw [hsig]
      exact hb z0 (by simp)
    set heapB := setSiguiente heap (anteriorDe heap c) (siguienteDe heap c)
      with hheapB
    set heapC := setAnterior heapB (siguienteDe heap c) (anteriorDe heap c)
      with hheapC
    have clink : Enlace heapC (anteriorDe heap c) (siguienteDe heap c) := by
      constructor
      · rw [hheapC, siguienteDe_setAnterior, hheapB,
          siguienteDe_setSiguiente_self _ _ _ hbant]
      · rw [hheapC, anteriorDe_setAnterior_self _ _ _
          (by rw [hheapB, length_setSiguiente]; exact hbsig)]
    have ctrans : List.Chain' (Enlace heapC) (z0 :: zs') := by
      refine chain'_congr_strong (z0 :: zs') ?_ hcz.2
      intro x hx y hy hxy
      have hxa : x ≠ anteriorDe heap c := by
        intro hxeq
        rw [hant] at hxeq
        rw [hxeq] at hx
        exact getLast_not_mem_dropLast (z0 :: zs') hndz (List.cons_ne_nil _ _) hx
      have hys : y ≠ siguienteDe heap c := by
        intro hyeq
        rw [hsig] at hyeq
        simp only [List.tail_cons] at hy
        rw [List.nodup_cons] at hndz
        rw [hyeq] at hy
        exact hndz.1 hy
      constructor
      · rw [hheapC, siguienteDe_setAnterior, hheapB,
          siguienteDe_setSiguiente_ne _ _ _ _ hxa]
        exact hxy.1
      · rw [hheapC, anteriorDe_setAnterior_ne _ _ _ _ hys, hheapB,
          anteriorDe_setSiguiente]
        exact hxy.2
    show List.Chain' (Enlace heapC) ((z0 :: zs') ++ [z0])
    refine List.Chain'.append ctrans (List.chain'_singleton z0) ?_
    intro x hx y hy
    rw [List.getLast?_eq_getLast_of_ne_nil (List.cons_ne_nil z0 zs')] at hx
    simp at hy
    have hxl : x = (z0 :: zs').getLast (List.cons_ne_nil z0 zs') := by
      simp at hx
      exact hx.symm
    subst hxl; subst hy
    rw [← hant, ← hsig]
    exact clink

lemma rep_actual_some (s : ListaReproduccion) (ring : List Nat)
    (h : RepAnillo s ring) (hne : ring ≠ []) :
    ∃ c, s.actual = some c ∧ c ∈ ring := by
  cases hac : s.actual with
  | none => exact absurd (h.actual_none hac) hne
  | some c =>
    refine ⟨c, rfl, h.actual_mem c ?_⟩
    rw [hac]
    rfl

lemma rep_eliminar_uno (s : ListaReproduccion) (ring : List Nat)
    (h : RepAnillo s ring) (h1 : s.tamanio = 1) :
    ∃ ring', RepAnillo (eliminar_cancion_actual s).2 ring' := by
  have hne : ring ≠ [] := by
    intro he
    rw [he] at h
    have := h.longitud_eq
    simp at this
    omega
  obtain ⟨c, hc, _⟩ := rep_actual_some s ring h hne
  have hvac : esta_vacia s = false := by
    simp [esta_vacia]
    omega
  rw [eliminar_eq_uno s c hvac h1 hc]
  exact ⟨[], rfl, List.nodup_nil, by simp, rfl, by simp, fun _ => rfl, trivial⟩

lemma rep_eliminar_mas (s : ListaReproduccion) (ring : List Nat)
    (h : RepAnillo s ring) (h2 : 2 ≤ s.tamanio) :
    ∃ ring', RepAnillo (eliminar_cancion_actual s).2 ring' := by
  have hrl : ring.length = s.tamanio := h.longitud_eq
  have hne : ring ≠ [] := by
    intro he
    rw [he] at hrl
    simp at hrl
    omega
  obtain ⟨c, hc, hcm⟩ := rep_actual_some s ring h hne
  obtain ⟨zs, hcy, hperm⟩ := esCiclo_mem_front s.heap ring c h.ciclo hcm
  have hnd : (c :: zs).Nodup := hperm.nodup_iff.mpr h.sinRepetidos
  have hlen : zs.length + 1 = s.tamanio := by
    have := hperm.length_eq
    simp at this
    omega
  have hzs : zs ≠ [] := by
    intro h0
    rw [h0] at hlen
    simp at hlen
    omega
  have hb : ∀ i ∈ c :: zs, i < s.heap.length :=
    fun i hi => h.cotas i (hperm.mem_iff.mp hi)
  obtain ⟨hcy2, hsig_head, hant_last⟩ :=
    ciclo_eliminar_core s.heap c zs hcy hnd hzs hb
  have hsig_ne : siguienteDe s.heap c ≠ c :=
    ciclo_sig_ne s.heap ring c h.ciclo h.sinRepetidos (by omega) hcm
  have hant_ne : anteriorDe s.heap c ≠ c :=
    ciclo_ant_ne s.heap ring c h.ciclo h.sinRepetidos (by omega) hcm
  have hvac : esta_vacia s = false := by
    simp [esta_vacia]
    omega
  have h1 : s.tamanio ≠ 1 := by omega
  rw [eliminar_eq_mas s c hvac h1 hc hant_ne hsig_ne]
  have hheadmem : zs.head hzs ∈ zs := List.head_mem hzs
  have hndzs : zs.Nodup := (List.nodup_cons.mp hnd).2
  have hlenC : (setAnterior
      (setSiguiente s.heap (anteriorDe s.heap c) (siguienteDe s.heap c))
      (siguienteDe s.heap c) (anteriorDe s.heap c)).length = s.heap.length := by
    rw [length_setAnterior, length_setSiguiente]
  by_cases hpc : s.primero = some c
  · obtain ⟨ws, hcy3, hperm3⟩ :=
      esCiclo_mem_front _ zs (zs.head hzs) hcy2 hheadmem
    refine ⟨zs.head hzs :: ws, ?_, hperm3.nodup_iff.mpr hndzs, ?_, ?_, ?_, ?_, hcy3⟩
    · have := hperm3.length_eq
      simp only [this]
      omega
    · intro i hi
      have hi2 : i ∈ zs := hperm3.mem_iff.mp hi
      rw [hlenC]
      exact hb i (List.mem_cons_of_mem c hi2)
    · simp [hpc, hsig_head]
    · intro a' ha'
      simp at ha'
      rw [← ha', hsig_head]
      exact List.mem_cons_self _ _
    · intro hcontra
      simp at hcontra
  · obtain ⟨p, hp⟩ : ∃ p, s.primero = some p := by
      cases ring with
      | nil => exact absurd rfl hne
      | cons rh rt => exact ⟨rh, by rw [h.primero_eq]; rfl⟩
    have hpring : p ∈ ring := by
      cases ring with
      | nil => exact absurd rfl hne
      | cons rh rt =>
        have : rh = p := by
          have := h.primero_eq
          rw [hp] at this
          simpa using this.symm
        rw [← this]
        exact List.mem_cons_self rh rt
    have hpc2 : p ≠ c := by
      intro he
      rw [he] at hp
      exact hpc hp
    have hpzs : p ∈ zs := by
      have : p ∈ c :: zs := hperm.mem_iff.mpr hpring
      rcases List.mem_cons.mp this with h' | h'
      · exact absurd h' hpc2
      · exact h'
    obtain ⟨ws, hcy3, hperm3⟩ := esCiclo_mem_front _ zs p hcy2 hpzs
    refine ⟨p :: ws, ?_, hperm3.nodup_iff.mpr hndzs, ?_, ?_, ?_, ?_, hcy3⟩
    · have := hperm3.length_eq
      simp only [this]
      omega
    · intro i hi
      have hi2 : i ∈ zs := hperm3.mem_iff.mp hi
      rw [hlenC]
      exact hb i (List.mem_cons_of_mem c hi2)
    · simp [hp, hpc2]
    · intro a' ha'
      simp at ha'
      rw [← ha', hsig_head]
      exact hperm3.mem_iff.mpr hheadmem
    · intro hcontra
      simp at hcontra

lemma rep_eliminar (s : ListaReproduccion) (ring : List Nat)
    (h : RepAnillo s ring) :
    ∃ ring', RepAnillo (eliminar_cancion_actual s).2 ring' := by
  rcases Nat.lt_or_ge s.tamanio 2 with hlt | hge
  · rcases Nat.lt_or_ge s.tamanio 1 with h0 | h1
    · have hvac : esta_vacia s = true := by
        simp [esta_vacia]
        omega
      rw [eliminar_eq_vacia s hvac]
      exact ⟨ring, h⟩
    · exact rep_eliminar_uno s ring h (by omega)
  · exact rep_eliminar_mas s ring h hge

lemma rep_siguiente (s : ListaReproduccion) (ring : List Nat)
    (h : RepAnillo s ring) : RepAnillo (siguiente_cancion s).2 ring := by
  by_cases hvac : esta_vacia s
  · simp only [siguiente_cancion, hvac, if_true]
    exact h
  · have h0 : s.tamanio ≠ 0 := by
      simp [esta_vacia] at hvac
      omega
    have hne : ring ≠ [] := by
      intro he
      rw [he] at h
      exact h0 (by simpa using h.longitud_eq.symm)
    obtain ⟨c, hc, hcm⟩ := rep_actual_some s ring h hne
    simp only [siguiente_cancion, hvac, if_false, hc, Option.getD_some,
      Bool.false_eq_true]
    exact ⟨h.longitud_eq, h.sinRepetidos, h.cotas, h.primero_eq,
      by
        intro a' ha'
        simp at ha'
        rw [← ha']
        exact (ciclo_ant_sig s.heap ring c h.ciclo hcm).2,
      by simp, h.ciclo⟩

lemma rep_anterior (s : ListaReproduccion) (ring : List Nat)
    (h : RepAnillo s ring) : RepAnillo (cancion_anterior s).2 ring := by
  by_cases hvac : esta_vacia s
  · simp only [cancion_anterior, hvac, if_true]
    exact h
  · have h0 : s.tamanio ≠ 0 := by
      simp [esta_vacia] at hvac
      omega
    have hne : ring ≠ [] := by
      intro he
      rw [he] at h
      exact h0 (by simpa using h.longitud_eq.symm)
    obtain ⟨c, hc, hcm⟩ := rep_actual_some s ring h hne
    simp only [cancion_anterior, hvac, if_false, hc, Option.getD_some,
      Bool.false_eq_true]
    exact ⟨h.longitud_eq, h.sinRepetidos, h.cotas, h.primero_eq,
      by
        intro a' ha'
        simp at ha'
        rw [← ha']
        exact (ciclo_sig_ant s.heap ring c h.ciclo hcm).2,
      by simp, h.ciclo⟩

lemma rep_paso (s : ListaReproduccion) (ring : List Nat)
    (h : RepAnillo s ring) (act : Accion) :
    ∃ ring', RepAnillo (paso s act) ring' := by
  cases act with
  | agregar t a d r => exact ⟨ring ++ [s.heap.length], rep_agregar s ring t a d r h⟩
  | eliminar => exact rep_eliminar s ring h
  | avanzar => exact ⟨ring, rep_siguiente s ring h⟩
  | retroceder => exact ⟨ring, rep_anterior s ring h⟩
  | consultarActual => exact ⟨ring, h⟩
  | contar => exact ⟨ring, h⟩
  | recorrerTodo fuel => exact ⟨ring, h⟩

lemma rep_ejecutar :
    ∀ (acts : List Accion) (s : ListaReproduccion),
      (∃ ring, RepAnillo s ring) → ∃ ring', RepAnillo (ejecutar s acts) ring'
  | [], _, hs => hs
  | act :: acts, s, ⟨ring, hring⟩ => by
    obtain ⟨ring', hring'⟩ := rep_paso s ring hring act
    exact rep_ejecutar acts (paso s act) ⟨ring', hring'⟩

/-- Every reachable state satisfies the representation invariant. -/
lemma alcanzable_rep (s : ListaReproduccion) (h : Alcanzable s) :
    ∃ ring, RepAnillo s ring := by
  obtain ⟨acts, rfl⟩ := h
  exact rep_ejecutar acts vacia ⟨[], rep_vacia⟩

/-! ### Pure append sequences -/

/-- Append a whole batch of songs in order. -/
def agregarTodas (s : ListaReproduccion)
    (entradas : List (String × String × Nat × String)) : ListaReproduccion :=
  entradas.foldl (fun st e => agregar_cancion st e.1 e.2.1 e.2.2.1 e.2.2.2) s

lemma agregar_eq_llena2 (s : ListaReproduccion) (t a : String) (d : Nat)
    (r : String) (hvac : esta_vacia s = false) :
    agregar_cancion s t a d r =
      { heap := setAnterior
          (setSiguiente
            (s.heap ++
              [⟨t, a, d, r, anteriorDe s.heap (s.primero.getD 0),
                s.primero.getD 0⟩])
            (anteriorDe s.heap (s.primero.getD 0)) s.heap.length)
          (s.primero.getD 0) s.heap.length,
        actual := s.actual, primero := s.primero,
        tamanio := s.tamanio + 1 } := by
  simp [agregar_cancion, hvac]

lemma agregar_datos_nuevo (s : ListaReproduccion) (t a : String) (d : Nat)
    (r : String) :
    datosDe ((agregar_cancion s t a d r).heap.getD s.heap.length default) =
      (t, a, d, r) := by
  by_cases hvac : esta_vacia s
  · rw [agregar_eq_vacia s t a d r hvac]
    show datosDe ((s.heap ++
      [(⟨t, a, d, r, s.heap.length, s.heap.length⟩ : NodoCancion)]).getD
      s.heap.length default) = (t, a, d, r)
    rw [getD_append_self]
    rfl
  · have hvac2 : esta_vacia s = false := by simpa using hvac
    rw [agregar_eq_llena2 s t a d r hvac2]
    show datosDe ((setAnterior (setSiguiente
      (s.heap ++ [(⟨t, a, d, r, anteriorDe s.heap (s.primero.getD 0),
        s.primero.getD 0⟩ : NodoCancion)])
      (anteriorDe s.heap (s.primero.getD 0)) s.heap.length)
      (s.primero.getD 0) s.heap.length).getD
      s.heap.length default) = (t, a, d, r)
    rw [datosDe_setAnterior, datosDe_setSiguiente, getD_append_self]
    rfl

lemma agregar_datos_viejo (s : ListaReproduccion) (t a : String) (d : Nat)
    (r : String) (k : Nat) (hk : k < s.heap.length) :
    datosDe ((agregar_cancion s t a d r).heap.getD k default) =
      datosDe (s.heap.getD k default) := by
  by_cases hvac : esta_vacia s
  · rw [agregar_eq_vacia s t a d r hvac]
    show datosDe ((s.heap ++
      [(⟨t, a, d, r, s.heap.length, s.heap.length⟩ : NodoCancion)]).getD
      k default) = datosDe (s.heap.getD k default)
    rw [getD_append_lt _ _ _ hk]
  · have hvac2 : esta_vacia s = false := by simpa using hvac
    rw [agregar_eq_llena2 s t a d r hvac2]
    show datosDe ((setAnterior (setSiguiente
      (s.heap ++ [(⟨t, a, d, r, anteriorDe s.heap (s.primero.getD 0),
        s.primero.getD 0⟩ : NodoCancion)])
      (anteriorDe s.heap (s.primero.getD 0)) s.heap.length)
      (s.primero.getD 0) s.heap.length).getD
      k default) = datosDe (s.heap.getD k default)
    rw [datosDe_setAnterior, datosDe_setSiguiente, getD_append_lt _ _ _ hk]

lemma agregarTodas_spec (entradas : List (String × String × Nat × String)) :
    RepAnillo (agregarTodas vacia entradas) (List.range entradas.length) ∧
      (agregarTodas vacia entradas).heap.length = entradas.length ∧
      ∀ k (hk : k < entradas.length),
        datosDe ((agregarTodas vacia entradas).heap.getD k default) =
          entradas.get ⟨k, hk⟩ := by
  induction entradas using List.reverseRecOn with
  | nil =>
    refine ⟨rep_vacia, rfl, ?_⟩
    intro k hk
    simp at hk
  | append_singleton es e ih =>
    obtain ⟨ihrep, ihlen, ihdatos⟩ := ih
    have hstep : agregarTodas vacia (es ++ [e]) =
        agregar_cancion (agregarTodas vacia es) e.1 e.2.1 e.2.2.1 e.2.2.2 := by
      simp [agregarTodas]
    have hrep2 := rep_agregar (agregarTodas vacia es) (List.range es.length)
      e.1 e.2.1 e.2.2.1 e.2.2.2 ihrep
    rw [ihlen] at hrep2
    refine ⟨?_, ?_, ?_⟩
    · rw [hstep]
      have hring : List.range es.length ++ [es.length] =
          List.range (es ++ [e]).length := by
        simp [List.range_succ]
      rw [← hring]
      exact hrep2
    · rw [hstep, agregar_heap_length, ihlen]
      simp
    · intro k hk
      rw [hstep]
      simp only [List.length_append, List.length_singleton] at hk
      rcases Nat.lt_or_ge k es.length with hklt | hkge
      · rw [agregar_datos_viejo _ _ _ _ _ k (by omega)]
        rw [ihdatos k hklt]
        have hk2 : k < (es ++ [e]).length := by simp; omega
        simp [List.getElem_append_left hklt]
      · have hkeq : k = es.length := by omega
        subst hkeq
        have hd := agregar_datos_nuevo (agregarTodas vacia es)
          e.1 e.2.1 e.2.2.1 e.2.2.2
        rw [ihlen] at hd
        rw [hd]
        simp

/-! ### Cursor motion helpers -/

lemma estado_actual_eta (s : ListaReproduccion) (c : Nat)
    (h : s.actual = some c) :
    ({ s with actual := some c } : ListaReproduccion) = s := by
  cases s
  simp_all

lemma tamanio_ne_cero_de_actual (s : ListaReproduccion) (ring : List Nat)
    (h : RepAnillo s ring) (c : Nat) (hc : s.actual = some c) :
    s.tamanio ≠ 0 := by
  have hcm : c ∈ ring := h.actual_mem c (by rw [hc]; rfl)
  have : ring ≠ [] := fun he => by
    rw [he] at hcm
    exact absurd hcm (List.not_mem_nil c)
  intro h0
  have := h.longitud_eq
  rw [h0] at this
  exact absurd (List.length_eq_zero.mp this) ‹ring ≠ []›

lemma iter_avanzar (s : ListaReproduccion) (ring : List Nat)
    (h : RepAnillo s ring) (c : Nat) (hc : s.actual = some c) :
    ∀ m, (fun st => (siguiente_cancion st).2)^[m] s =
      { s with actual := some ((fun x => siguienteDe s.heap x)^[m] c) } := by
  intro m
  induction m with
  | zero => exact (estado_actual_eta s c hc).symm
  | succ m ih =>
    rw [Function.iterate_succ_apply', ih]
    have htam : s.tamanio ≠ 0 := tamanio_ne_cero_de_actual s ring h c hc
    have hvac : esta_vacia ({ s with
        actual := some ((fun x => siguienteDe s.heap x)^[m] c) } :
        ListaReproduccion) = false := by
      simp [esta_vacia]
      omega
    simp only [siguiente_cancion, hvac, Bool.false_eq_true, if_false,
      Option.getD_some]
    rw [Function.iterate_succ_apply']

lemma iter_retroceder (s : ListaReproduccion) (ring : List Nat)
    (h : RepAnillo s ring) (c : Nat) (hc : s.actual = some c) :
    ∀ m, (fun st => (cancion_anterior st).2)^[m] s =
      { s with actual := some ((fun x => anteriorDe s.heap x)^[m] c) } := by
  intro m
  induction m with
  | zero => exact (estado_actual_eta s c hc).symm
  | succ m ih =>
    rw [Function.iterate_succ_apply', ih]
    have htam : s.tamanio ≠ 0 := tamanio_ne_cero_de_actual s ring h c hc
    have hvac : esta_vacia ({ s with
        actual := some ((fun x => anteriorDe s.heap x)^[m] c) } :
        ListaReproduccion) = false := by
      simp [esta_vacia]
      omega
    simp only [cancion_anterior, hvac, Bool.false_eq_true, if_false,
      Option.getD_some]
    rw [Function.iterate_succ_apply']

lemma getD_setSiguiente_ne (heap : List NodoCancion) (i j x : Nat) (h : x ≠ i) :
    (setSiguiente heap i j).getD x default = heap.getD x default := by
  simp only [setSiguiente]
  exact getD_set_ne _ _ _ _ h

lemma getD_setAnterior_ne (heap : List NodoCancion) (i j x : Nat) (h : x ≠ i) :
    (setAnterior heap i j).getD x default = heap.getD x default := by
  simp only [setAnterior]
  exact getD_set_ne _ _ _ _ h

/-! ### The claims -/

/-- C1: after any sequence of n appends from the empty playlist, `count()`
returns n and `toOrderedSequence()` returns the n created nodes (identities
0..n-1, metadata matching the appended entries) in append order. -/
theorem C1_conteo_y_orden (entradas : List (String × String × Nat × String))
    (fuel : Nat) (hfuel : entradas.length ≤ fuel) :
    longitud (agregarTodas vacia entradas) = entradas.length ∧
    obtener_todas_las_canciones (agregarTodas vacia entradas) fuel =
      some (List.range entradas.length) ∧
    ∀ k (hk : k < entradas.length),
      datosDe ((agregarTodas vacia entradas).heap.getD k default) =
        entradas.get ⟨k, hk⟩ := by
  obtain ⟨hrep, hlen, hdatos⟩ := agregarTodas_spec entradas
  have htam : (agregarTodas vacia entradas).tamanio = entradas.length := by
    rw [← hrep.longitud_eq]
    simp
  refine ⟨htam, ?_, hdatos⟩
  refine obtener_rep _ _ fuel hrep ?_
  rw [htam]
  exact hfuel

theorem C1_conteo_y_orden_testigo :
    longitud (agregarTodas vacia
      [("a", "b", 120, "p"), ("c", "d", 200, "q")]) = 2 ∧
    obtener_todas_las_canciones (agregarTodas vacia
      [("a", "b", 120, "p"), ("c", "d", 200, "q")]) 2 =
      some (List.range 2) :=
  ⟨(C1_conteo_y_orden [("a", "b", 120, "p"), ("c", "d", 200, "q")] 2
      (by decide)).1,
   (C1_conteo_y_orden [("a", "b", 120, "p"), ("c", "d", 200, "q")] 2
      (by decide)).2.1⟩

/-- C4: in every reachable state, `size == 0`, `cursor == none` and
`head == none` are equivalent. -/
theorem C4_equivalencia_vacuidad (s : ListaReproduccion) (h : Alcanzable s) :
    (longitud s = 0 ↔ s.actual = none) ∧
    (s.actual = none ↔ s.primero = none) := by
  obtain ⟨ring, hrep⟩ := alcanzable_rep s h
  have hlen := hrep.longitud_eq
  have hact_of_nil : ring = [] → s.actual = none := by
    intro he
    cases hac : s.actual with
    | none => rfl
    | some a =>
      have hm := hrep.actual_mem a (by rw [hac]; rfl)
      rw [he] at hm
      exact absurd hm (List.not_mem_nil a)
  constructor
  · constructor
    · intro h0
      refine hact_of_nil (List.length_eq_zero.mp ?_)
      rw [hlen]
      exact h0
    · intro h0
      have he := hrep.actual_none h0
      show s.tamanio = 0
      rw [← hlen, he]
      rfl
  · constructor
    · intro h0
      have he := hrep.actual_none h0
      rw [hrep.primero_eq, he]
      rfl
    · intro h0
      refine hact_of_nil ?_
      have hpe := hrep.primero_eq
      rw [h0] at hpe
      cases ring with
      | nil => rfl
      | cons x l => simp at hpe

theorem C4_equivalencia_vacuidad_testigo :
    (longitud vacia = 0 ↔ vacia.actual = none) ∧
    (vacia.actual = none ↔ vacia.primero = none) :=
  C4_equivalencia_vacuidad vacia ⟨[], rfl⟩

/-- C5: on an empty playlist, removal, advance and retreat return `none`
and leave the state untouched, and the traversal returns the empty
sequence. -/
theorem C5_operaciones_en_vacia (s : ListaReproduccion) (h0 : s.tamanio = 0) :
    eliminar_cancion_actual s = (none, s) ∧
    siguiente_cancion s = (none, s) ∧
    cancion_anterior s = (none, s) ∧
    ∀ fuel, obtener_todas_las_canciones s fuel = some [] := by
  have hvac : esta_vacia s = true := by simp [esta_vacia, h0]
  exact ⟨eliminar_eq_vacia s hvac, by simp [siguiente_cancion, hvac],
    by simp [cancion_anterior, hvac],
    fun fuel => by simp [obtener_todas_las_canciones, hvac]⟩

theorem C5_operaciones_en_vacia_testigo :
    eliminar_cancion_actual vacia = (none, vacia) ∧
    siguiente_cancion vacia = (none, vacia) ∧
    cancion_anterior vacia = (none, vacia) ∧
    obtener_todas_las_canciones vacia 3 = some [] :=
  ⟨(C5_operaciones_en_vacia vacia rfl).1,
   (C5_operaciones_en_vacia vacia rfl).2.1,
   (C5_operaciones_en_vacia vacia rfl).2.2.1,
   (C5_operaciones_en_vacia vacia rfl).2.2.2 3⟩

/-- C9: for any playlist satisfying the ring invariant, the traversal
terminates (with any fuel covering the size) and returns exactly `size`
nodes starting at `head`; the stopping test is by node identity, so
duplicate metadata is irrelevant. -/
theorem C9_recorrido_termina (s : ListaReproduccion) (ring : List Nat)
    (fuel : Nat) (h : RepAnillo s ring) (hfuel : longitud s ≤ fuel) :
    ∃ ns, obtener_todas_las_canciones s fuel = some ns ∧
      ns.length = longitud s ∧ ns.head? = s.primero :=
  ⟨ring, obtener_rep s ring fuel h hfuel, h.longitud_eq, h.primero_eq.symm⟩

theorem C9_recorrido_termina_testigo :
    ∃ ns, obtener_todas_las_canciones
        (agregarTodas vacia [("x", "y", 100, "r"), ("x", "y", 100, "r")]) 2 =
        some ns ∧
      ns.length = longitud
        (agregarTodas vacia [("x", "y", 100, "r"), ("x", "y", 100, "r")]) ∧
      ns.head? = (agregarTodas vacia
        [("x", "y", 100, "r"), ("x", "y", 100, "r")]).primero :=
  C9_recorrido_termina
    (agregarTodas vacia [("x", "y", 100, "r"), ("x", "y", 100, "r")])
    (List.range 2) 2
    (agregarTodas_spec [("x", "y", 100, "r"), ("x", "y", 100, "r")]).1
    (by decide)

/-- C10: removal never mutates the removed node itself: its metadata and
its `anterior` / `siguiente` pointers are exactly as before the call. -/
theorem C10_nodo_eliminado_intacto (s : ListaReproduccion) (h : Alcanzable s)
    (c : Nat) (hc : s.actual = some c) :
    (eliminar_cancion_actual s).1 = some c ∧
    (eliminar_cancion_actual s).2.heap.getD c default =
      s.heap.getD c default := by
  obtain ⟨ring, hrep⟩ := alcanzable_rep s h
  have htam : s.tamanio ≠ 0 := tamanio_ne_cero_de_actual s ring hrep c hc
  have hvac : esta_vacia s = false := by
    simp [esta_vacia]
    omega
  rcases Nat.lt_or_ge s.tamanio 2 with hlt | hge
  · have h1 : s.tamanio = 1 := by omega
    rw [eliminar_eq_uno s c hvac h1 hc]
    exact ⟨rfl, rfl⟩
  · have hcm : c ∈ ring := hrep.actual_mem c (by rw [hc]; rfl)
    have hrlen : 2 ≤ ring.length := by
      rw [hrep.longitud_eq]
      omega
    have hsig_ne : siguienteDe s.heap c ≠ c :=
      ciclo_sig_ne s.heap ring c hrep.ciclo hrep.sinRepetidos hrlen hcm
    have hant_ne : anteriorDe s.heap c ≠ c :=
      ciclo_ant_ne s.heap ring c hrep.ciclo hrep.sinRepetidos hrlen hcm
    rw [eliminar_eq_mas s c hvac (by omega) hc hant_ne hsig_ne]
    refine ⟨rfl, ?_⟩
    show (setAnterior
      (setSiguiente s.heap (anteriorDe s.heap c) (siguienteDe s.heap c))
      (siguienteDe s.heap c) (anteriorDe s.heap c)).getD c default =
      s.heap.getD c default
    rw [getD_setAnterior_ne _ _ _ _ (Ne.symm hsig_ne),
      getD_setSiguiente_ne _ _ _ _ (Ne.symm hant_ne)]

theorem C10_nodo_eliminado_intacto_testigo :
    (eliminar_cancion_actual (ejecutar vacia
      [Accion.agregar "a" "b" 1 "p", Accion.agregar "c" "d" 2 "q"])).1 =
      some 0 ∧
    (eliminar_cancion_actual (ejecutar vacia
      [Accion.agregar "a" "b" 1 "p", Accion.agregar "c" "d" 2 "q"])).2.heap.getD
      0 default =
    (ejecutar vacia
      [Accion.agregar "a" "b" 1 "p", Accion.agregar "c" "d" 2 "q"]).heap.getD
      0 default :=
  C10_nodo_eliminado_intacto
    (ejecutar vacia [Accion.agregar "a" "b" 1 "p", Accion.agregar "c" "d" 2 "q"])
    ⟨[Accion.agregar "a" "b" 1 "p", Accion.agregar "c" "d" 2 "q"], rfl⟩
    0 (by decide)

/-- C2: on a non-empty playlist, removal returns the cursor's node; with one
node the list empties, otherwise the neighbors are spliced, the cursor moves
to the removed node's original next, the head advances only when it was the
removed node, and the size drops by exactly one. -/
theorem C2_eliminar_el_actual (s : ListaReproduccion) (h : Alcanzable s)
    (hne : s.tamanio ≠ 0) :
    ∃ c, s.actual = some c ∧
      (eliminar_cancion_actual s).1 = some c ∧
      (eliminar_cancion_actual s).2.tamanio + 1 = s.tamanio ∧
      (s.tamanio = 1 →
        (eliminar_cancion_actual s).2.actual = none ∧
        (eliminar_cancion_actual s).2.primero = none) ∧
      (s.tamanio ≠ 1 →
        siguienteDe (eliminar_cancion_actual s).2.heap (anteriorDe s.heap c) =
          siguienteDe s.heap c ∧
        anteriorDe (eliminar_cancion_actual s).2.heap (siguienteDe s.heap c) =
          anteriorDe s.heap c ∧
        (eliminar_cancion_actual s).2.actual = some (siguienteDe s.heap c) ∧
        (s.primero = s.actual →
          (eliminar_cancion_actual s).2.primero =
            some (siguienteDe s.heap c)) ∧
        (s.primero ≠ s.actual →
          (eliminar_cancion_actual s).2.primero = s.primero)) := by
  obtain ⟨ring, hrep⟩ := alcanzable_rep s h
  have hrne : ring ≠ [] := by
    intro he
    rw [he] at hrep
    exact hne (by simpa using hrep.longitud_eq.symm)
  obtain ⟨c, hc, hcm⟩ := rep_actual_some s ring hrep hrne
  have hvac : esta_vacia s = false := by
    simp [esta_vacia]
    omega
  refine ⟨c, hc, ?_⟩
  rcases Nat.lt_or_ge s.tamanio 2 with hlt | hge
  · have h1 : s.tamanio = 1 := by omega
    rw [eliminar_eq_uno s c hvac h1 hc]
    refine ⟨rfl, by simp [h1], fun _ => ⟨rfl, rfl⟩, fun hcon => absurd h1 hcon⟩
  · have hrlen : 2 ≤ ring.length := by
      rw [hrep.longitud_eq]
      omega
    have hsig_ne : siguienteDe s.heap c ≠ c :=
      ciclo_sig_ne s.heap ring c hrep.ciclo hrep.sinRepetidos hrlen hcm
    have hant_ne : anteriorDe s.heap c ≠ c :=
      ciclo_ant_ne s.heap ring c hrep.ciclo hrep.sinRepetidos hrlen hcm
    have hantmem : anteriorDe s.heap c ∈ ring :=
      (ciclo_sig_ant s.heap ring c hrep.ciclo hcm).2
    have hsigmem : siguienteDe s.heap c ∈ ring :=
      (ciclo_ant_sig s.heap ring c hrep.ciclo hcm).2
    have hantlt : anteriorDe s.heap c < s.heap.length := hrep.cotas _ hantmem
    have hsiglt : siguienteDe s.heap c < s.heap.length := hrep.cotas _ hsigmem
    rw [eliminar_eq_mas s c hvac (by omega) hc hant_ne hsig_ne]
    refine ⟨rfl, by simp; omega, fun hcon => absurd hcon (by omega), ?_⟩
    intro _
    refine ⟨?_, ?_, rfl, ?_, ?_⟩
    · show siguienteDe (setAnterior
        (setSiguiente s.heap (anteriorDe s.heap c) (siguienteDe s.heap c))
        (siguienteDe s.heap c) (anteriorDe s.heap c)) (anteriorDe s.heap c) =
        siguienteDe s.heap c
      rw [siguienteDe_setAnterior,
        siguienteDe_setSiguiente_self _ _ _ hantlt]
    · show anteriorDe (setAnterior
        (setSiguiente s.heap (anteriorDe s.heap c) (siguienteDe s.heap c))
        (siguienteDe s.heap c) (anteriorDe s.heap c)) (siguienteDe s.heap c) =
        anteriorDe s.heap c
      rw [anteriorDe_setAnterior_self _ _ _
        (by rw [length_setSiguiente]; exact hsiglt)]
    · intro hpa
      have hpc : s.primero = some c := by rw [hpa, hc]
      simp [hpc]
    · intro hpa
      have hpc : ¬ s.primero = some c := by
        rw [← hc]
        exact hpa
      simp [hpc]

theorem C2_eliminar_el_actual_testigo :
    ∃ c, (ejecutar vacia [Accion.agregar "a" "b" 1 "p",
        Accion.agregar "c" "d" 2 "q"]).actual = some c ∧
      (eliminar_cancion_actual (ejecutar vacia [Accion.agregar "a" "b" 1 "p",
        Accion.agregar "c" "d" 2 "q"])).1 = some c ∧
      (eliminar_cancion_actual (ejecutar vacia [Accion.agregar "a" "b" 1 "p",
        Accion.agregar "c" "d" 2 "q"])).2.tamanio + 1 =
        (ejecutar vacia [Accion.agregar "a" "b" 1 "p",
          Accion.agregar "c" "d" 2 "q"]).tamanio ∧
      ((ejecutar vacia [Accion.agregar "a" "b" 1 "p",
          Accion.agregar "c" "d" 2 "q"]).tamanio = 1 →
        (eliminar_cancion_actual (ejecutar vacia [Accion.agregar "a" "b" 1 "p",
          Accion.agregar "c" "d" 2 "q"])).2.actual = none ∧
        (eliminar_cancion_actual (ejecutar vacia [Accion.agregar "a" "b" 1 "p",
          Accion.agregar "c" "d" 2 "q"])).2.primero = none) ∧
      ((ejecutar vacia [Accion.agregar "a" "b" 1 "p",
          Accion.agregar "c" "d" 2 "q"]).tamanio ≠ 1 →
        siguienteDe (eliminar_cancion_actual (ejecutar vacia
          [Accion.agregar "a" "b" 1 "p",
            Accion.agregar "c" "d" 2 "q"])).2.heap
          (anteriorDe (ejecutar vacia [Accion.agregar "a" "b" 1 "p",
            Accion.agregar "c" "d" 2 "q"]).heap c) =
          siguienteDe (ejecutar vacia [Accion.agregar "a" "b" 1 "p",
            Accion.agregar "c" "d" 2 "q"]).heap c ∧
        anteriorDe (eliminar_cancion_actual (ejecutar vacia
          [Accion.agregar "a" "b" 1 "p",
            Accion.agregar "c" "d" 2 "q"])).2.heap
          (siguienteDe (ejecutar vacia [Accion.agregar "a" "b" 1 "p",
            Accion.agregar "c" "d" 2 "q"]).heap c) =
          anteriorDe (ejecutar vacia [Accion.agregar "a" "b" 1 "p",
            Accion.agregar "c" "d" 2 "q"]).heap c ∧
        (eliminar_cancion_actual (ejecutar vacia [Accion.agregar "a" "b" 1 "p",
          Accion.agregar "c" "d" 2 "q"])).2.actual =
          some (siguienteDe (ejecutar vacia [Accion.agregar "a" "b" 1 "p",
            Accion.agregar "c" "d" 2 "q"]).heap c) ∧
        ((ejecutar vacia [Accion.agregar "a" "b" 1 "p",
            Accion.agregar "c" "d" 2 "q"]).primero =
          (ejecutar vacia [Accion.agregar "a" "b" 1 "p",
            Accion.agregar "c" "d" 2 "q"]).actual →
          (eliminar_cancion_actual (ejecutar vacia
            [Accion.agregar "a" "b" 1 "p",
              Accion.agregar "c" "d" 2 "q"])).2.primero =
            some (siguienteDe (ejecutar vacia [Accion.agregar "a" "b" 1 "p",
              Accion.agregar "c" "d" 2 "q"]).heap c)) ∧
        ((ejecutar vacia [Accion.agregar "a" "b" 1 "p",
            Accion.agregar "c" "d" 2 "q"]).primero ≠
          (ejecutar vacia [Accion.agregar "a" "b" 1 "p",
            Accion.agregar "c" "d" 2 "q"]).actual →
          (eliminar_cancion_actual (ejecutar vacia
            [Accion.agregar "a" "b" 1 "p",
              Accion.agregar "c" "d" 2 "q"])).2.primero =
            (ejecutar vacia [Accion.agregar "a" "b" 1 "p",
              Accion.agregar "c" "d" 2 "q"]).primero)) :=
  C2_eliminar_el_actual
    (ejecutar vacia [Accion.agregar "a" "b" 1 "p", Accion.agregar "c" "d" 2 "q"])
    ⟨[Accion.agregar "a" "b" 1 "p", Accion.agregar "c" "d" 2 "q"], rfl⟩
    (by decide)

/-- C3: after any sequence of operations from the empty playlist, every
node listed by the traversal satisfies the ring equations and walking
`siguiente` exactly `count()` times returns to it. -/
theorem C3_propiedad_anillo (s : ListaReproduccion) (h : Alcanzable s) :
    ∃ ns, obtener_todas_las_canciones s (longitud s) = some ns ∧
      ∀ a ∈ ns,
        anteriorDe s.heap (siguienteDe s.heap a) = a ∧
        siguienteDe s.heap (anteriorDe s.heap a) = a ∧
        (fun x => siguienteDe s.heap x)^[longitud s] a = a := by
  obtain ⟨ring, hrep⟩ := alcanzable_rep s h
  refine ⟨ring, obtener_rep s ring (longitud s) hrep (Nat.le_refl _), ?_⟩
  intro a ha
  refine ⟨(ciclo_ant_sig s.heap ring a hrep.ciclo ha).1,
    (ciclo_sig_ant s.heap ring a hrep.ciclo ha).1, ?_⟩
  have h3 := ciclo_iterate_sig s.heap ring a hrep.ciclo ha
  rw [hrep.longitud_eq] at h3
  exact h3

theorem C3_propiedad_anillo_testigo :
    ∃ ns, obtener_todas_las_canciones
        (ejecutar vacia [Accion.agregar "a" "b" 1 "p",
          Accion.agregar "c" "d" 2 "q", Accion.agregar "e" "f" 3 "r",
          Accion.avanzar, Accion.eliminar])
        (longitud (ejecutar vacia [Accion.agregar "a" "b" 1 "p",
          Accion.agregar "c" "d" 2 "q", Accion.agregar "e" "f" 3 "r",
          Accion.avanzar, Accion.eliminar])) = some ns ∧
      ∀ a ∈ ns,
        anteriorDe (ejecutar vacia [Accion.agregar "a" "b" 1 "p",
          Accion.agregar "c" "d" 2 "q", Accion.agregar "e" "f" 3 "r",
          Accion.avanzar, Accion.eliminar]).heap
          (siguienteDe (ejecutar vacia [Accion.agregar "a" "b" 1 "p",
            Accion.agregar "c" "d" 2 "q", Accion.agregar "e" "f" 3 "r",
            Accion.avanzar, Accion.eliminar]).heap a) = a ∧
        siguienteDe (ejecutar vacia [Accion.agregar "a" "b" 1 "p",
          Accion.agregar "c" "d" 2 "q", Accion.agregar "e" "f" 3 "r",
          Accion.avanzar, Accion.eliminar]).heap
          (anteriorDe (ejecutar vacia [Accion.agregar "a" "b" 1 "p",
            Accion.agregar "c" "d" 2 "q", Accion.agregar "e" "f" 3 "r",
            Accion.avanzar, Accion.eliminar]).heap a) = a ∧
        (fun x => siguienteDe (ejecutar vacia [Accion.agregar "a" "b" 1 "p",
          Accion.agregar "c" "d" 2 "q", Accion.agregar "e" "f" 3 "r",
          Accion.avanzar, Accion.eliminar]).heap x)^[longitud (ejecutar vacia
          [Accion.agregar "a" "b" 1 "p", Accion.agregar "c" "d" 2 "q",
            Accion.agregar "e" "f" 3 "r", Accion.avanzar,
            Accion.eliminar])] a = a :=
  C3_propiedad_anillo
    (ejecutar vacia [Accion.agregar "a" "b" 1 "p", Accion.agregar "c" "d" 2 "q",
      Accion.agregar "e" "f" 3 "r", Accion.avanzar, Accion.eliminar])
    ⟨[Accion.agregar "a" "b" 1 "p", Accion.agregar "c" "d" 2 "q",
      Accion.agregar "e" "f" 3 "r", Accion.avanzar, Accion.eliminar], rfl⟩

/-- C6: on a non-empty playlist, append neither reads nor writes the
cursor — the cursor is unchanged and the rest of the result is the same for
every cursor position; on the empty playlist the new node becomes both
cursor and head. -/
theorem C6_agregar_ignora_cursor (s : ListaReproduccion) (t a : String)
    (d : Nat) (r : String) :
    (s.tamanio ≠ 0 →
      (agregar_cancion s t a d r).actual = s.actual ∧
      ∀ o : Option Nat,
        agregar_cancion { s with actual := o } t a d r =
          { agregar_cancion s t a d r with actual := o }) ∧
    (s.tamanio = 0 →
      (agregar_cancion s t a d r).actual = some s.heap.length ∧
      (agregar_cancion s t a d r).primero = some s.heap.length) := by
  constructor
  · intro hne
    have hvac : esta_vacia s = false := by
      simp [esta_vacia]
      omega
    constructor
    · rw [agregar_eq_llena2 s t a d r hvac]
    · intro o
      have hvac2 : esta_vacia ({ s with actual := o } :
          ListaReproduccion) = false := hvac
      rw [agregar_eq_llena2 ({ s with actual := o } : ListaReproduccion)
        t a d r hvac2, agregar_eq_llena2 s t a d r hvac]
  · intro h0
    have hvac : esta_vacia s = true := by simp [esta_vacia, h0]
    rw [agregar_eq_vacia s t a d r hvac]
    exact ⟨rfl, rfl⟩

theorem C6_agregar_ignora_cursor_testigo :
    ((agregar_cancion (agregar_cancion vacia "x" "y" 2 "z") "t" "u" 3 "v").actual =
      (agregar_cancion vacia "x" "y" 2 "z").actual ∧
     agregar_cancion
        { agregar_cancion vacia "x" "y" 2 "z" with actual := some 5 }
        "t" "u" 3 "v" =
      { agregar_cancion (agregar_cancion vacia "x" "y" 2 "z") "t" "u" 3 "v"
          with actual := some 5 }) ∧
    ((agregar_cancion vacia "t" "u" 3 "v").actual =
      some vacia.heap.length ∧
     (agregar_cancion vacia "t" "u" 3 "v").primero =
      some vacia.heap.length) :=
  ⟨⟨((C6_agregar_ignora_cursor (agregar_cancion vacia "x" "y" 2 "z")
      "t" "u" 3 "v").1 (by decide)).1,
    ((C6_agregar_ignora_cursor (agregar_cancion vacia "x" "y" 2 "z")
      "t" "u" 3 "v").1 (by decide)).2 (some 5)⟩,
   (C6_agregar_ignora_cursor vacia "t" "u" 3 "v").2 rfl⟩

/-- C7: on a non-empty playlist, advance followed by retreat (and retreat
followed by advance) restores the exact state, and the second call returns
the original cursor node. -/
theorem C7_avanzar_retroceder_invierte (s : ListaReproduccion)
    (h : Alcanzable s) (hne : s.tamanio ≠ 0) :
    (cancion_anterior (siguiente_cancion s).2).2 = s ∧
    (siguiente_cancion (cancion_anterior s).2).2 = s ∧
    (cancion_anterior (siguiente_cancion s).2).1 = s.actual ∧
    (siguiente_cancion (cancion_anterior s).2).1 = s.actual := by
  obtain ⟨ring, hrep⟩ := alcanzable_rep s h
  have hrne : ring ≠ [] := by
    intro he
    rw [he] at hrep
    exact hne (by simpa using hrep.longitud_eq.symm)
  obtain ⟨c, hc, hcm⟩ := rep_actual_some s ring hrep hrne
  have hvac : esta_vacia s = false := by
    simp [esta_vacia]
    omega
  have hA := (ciclo_ant_sig s.heap ring c hrep.ciclo hcm).1
  have hB := (ciclo_sig_ant s.heap ring c hrep.ciclo hcm).1
  have step1 : (siguiente_cancion s).2 =
      { s with actual := some (siguienteDe s.heap c) } := by
    simp [siguiente_cancion, hvac, hc]
  have step2 : (cancion_anterior s).2 =
      { s with actual := some (anteriorDe s.heap c) } := by
    simp [cancion_anterior, hvac, hc]
  have hvacA : esta_vacia ({ s with actual := some (siguienteDe s.heap c) } :
      ListaReproduccion) = false := hvac
  have hvacB : esta_vacia ({ s with actual := some (anteriorDe s.heap c) } :
      ListaReproduccion) = false := hvac
  refine ⟨?_, ?_, ?_, ?_⟩
  · rw [step1]
    simp only [cancion_anterior, hvacA, Bool.false_eq_true, if_false,
      Option.getD_some]
    rw [hA]
    exact estado_actual_eta s c hc
  · rw [step2]
    simp only [siguiente_cancion, hvacB, Bool.false_eq_true, if_false,
      Option.getD_some]
    rw [hB]
    exact estado_actual_eta s c hc
  · rw [step1]
    simp only [cancion_anterior, hvacA, Bool.false_eq_true, if_false,
      Option.getD_some]
    rw [hA, hc]
  · rw [step2]
    simp only [siguiente_cancion, hvacB, Bool.false_eq_true, if_false,
      Option.getD_some]
    rw [hB, hc]

theorem C7_avanzar_retroceder_invierte_testigo :
    (cancion_anterior (siguiente_cancion (ejecutar vacia
      [Accion.agregar "a" "b" 1 "p", Accion.agregar "c" "d" 2 "q"])).2).2 =
      ejecutar vacia [Accion.agregar "a" "b" 1 "p",
        Accion.agregar "c" "d" 2 "q"] ∧
    (siguiente_cancion (cancion_anterior (ejecutar vacia
      [Accion.agregar "a" "b" 1 "p", Accion.agregar "c" "d" 2 "q"])).2).2 =
      ejecutar vacia [Accion.agregar "a" "b" 1 "p",
        Accion.agregar "c" "d" 2 "q"] ∧
    (cancion_anterior (siguiente_cancion (ejecutar vacia
      [Accion.agregar "a" "b" 1 "p", Accion.agregar "c" "d" 2 "q"])).2).1 =
      (ejecutar vacia [Accion.agregar "a" "b" 1 "p",
        Accion.agregar "c" "d" 2 "q"]).actual ∧
    (siguiente_cancion (cancion_anterior (ejecutar vacia
      [Accion.agregar "a" "b" 1 "p", Accion.agregar "c" "d" 2 "q"])).2).1 =
      (ejecutar vacia [Accion.agregar "a" "b" 1 "p",
        Accion.agregar "c" "d" 2 "q"]).actual :=
  C7_avanzar_retroceder_invierte
    (ejecutar vacia [Accion.agregar "a" "b" 1 "p", Accion.agregar "c" "d" 2 "q"])
    ⟨[Accion.agregar "a" "b" 1 "p", Accion.agregar "c" "d" 2 "q"], rfl⟩
    (by decide)

/-- C8: on a non-empty playlist, `size` advances in a row restore the state
(the cursor wraps around the ring), and symmetrically for retreats. -/
theorem C8_vuelta_completa (s : ListaReproduccion) (h : Alcanzable s)
    (hne : s.tamanio ≠ 0) :
    (fun st => (siguiente_cancion st).2)^[longitud s] s = s ∧
    (fun st => (cancion_anterior st).2)^[longitud s] s = s := by
  obtain ⟨ring, hrep⟩ := alcanzable_rep s h
  have hrne : ring ≠ [] := by
    intro he
    rw [he] at hrep
    exact hne (by simpa using hrep.longitud_eq.symm)
  obtain ⟨c, hc, hcm⟩ := rep_actual_some s ring hrep hrne
  constructor
  · rw [iter_avanzar s ring hrep c hc (longitud s)]
    have h3 := ciclo_iterate_sig s.heap ring c hrep.ciclo hcm
    rw [hrep.longitud_eq] at h3
    rw [show (fun x => siguienteDe s.heap x)^[longitud s] c = c from h3]
    exact estado_actual_eta s c hc
  · rw [iter_retroceder s ring hrep c hc (longitud s)]
    have h3 := ciclo_iterate_ant s.heap ring c hrep.ciclo hcm
    rw [hrep.longitud_eq] at h3
    rw [show (fun x => anteriorDe s.heap x)^[longitud s] c = c from h3]
    exact estado_actual_eta s c hc

theorem C8_vuelta_completa_testigo :
    (fun st => (siguiente_cancion st).2)^[longitud (ejecutar vacia
      [Accion.agregar "a" "b" 1 "p", Accion.agregar "c" "d" 2 "q",
        Accion.avanzar])]
      (ejecutar vacia [Accion.agregar "a" "b" 1 "p",
        Accion.agregar "c" "d" 2 "q", Accion.avanzar]) =
      ejecutar vacia [Accion.agregar "a" "b" 1 "p",
        Accion.agregar "c" "d" 2 "q", Accion.avanzar] ∧
    (fun st => (cancion_anterior st).2)^[longitud (ejecutar vacia
      [Accion.agregar "a" "b" 1 "p", Accion.agregar "c" "d" 2 "q",
        Accion.avanzar])]
      (ejecutar vacia [Accion.agregar "a" "b" 1 "p",
        Accion.agregar "c" "d" 2 "q", Accion.avanzar]) =
      ejecutar vacia [Accion.agregar "a" "b" 1 "p",
        Accion.agregar "c" "d" 2 "q", Accion.avanzar] :=
  C8_vuelta_completa
    (ejecutar vacia [Accion.agregar "a" "b" 1 "p",
      Accion.agregar "c" "d" 2 "q", Accion.avanzar])
    ⟨[Accion.agregar "a" "b" 1 "p", Accion.agregar "c" "d" 2 "q",
      Accion.avanzar], rfl⟩
    (by decide)
